import Mathlib

/-!
Verification of the MSVC backend of octobuild: the preprocessed-output
filter (`src/vs/postprocess.rs`) and the two-phase compile driver
(`src/vs/compiler.rs`), shallowly embedded over byte lists (`List Nat`,
one `Nat` per byte).  Readers are byte lists consumed from the front;
writers are byte lists built by appending; `Option` models `IoError`
propagation (`none` = a read failed, i.e. end-of-file inside the loop).
-/

set_option autoImplicit false

namespace Octobuild

/-- Bytes of a string literal (one `Nat` per char; all inputs are ASCII). -/
def strBytes (s : String) : List Nat :=
  s.data.map (fun c => c.toNat)

/-- `Directive` from `postprocess.rs`: `Line(raw, file)`, `HdrStop(raw)`,
`Unknown(raw)`.  `raw` holds every byte consumed while lexing the
directive (leading `#` included); `file` holds the decoded file-name
token of a `#line` directive. -/
inductive Directive : Type where
  | Line : List Nat → List Nat → Directive
  | HdrStop : List Nat → Directive
  | Unknown : List Nat → Directive
deriving DecidableEq, Repr

/-- The raw byte buffer carried by a directive. -/
def Directive.rawOf : Directive → List Nat
  | .Line r _ => r
  | .HdrStop r => r
  | .Unknown r => r

/-- Loop body of `skip_spaces` (`postprocess.rs:190-197`): read bytes,
appending each to `raw`; stop with `none` on `\n`/`\r`, skip `\t`/space,
return any other byte as the next hint. -/
def skip_spaces_loop : List Nat → List Nat → Option (Option Nat × List Nat × List Nat)
  | [], _ => none
  | c :: rest, raw =>
    if c = 10 ∨ c = 13 then some (none, rest, raw ++ [c])
    else if c = 9 ∨ c = 32 then skip_spaces_loop rest (raw ++ [c])
    else some (some c, rest, raw ++ [c])

/-- `skip_spaces` (`postprocess.rs:179-199`).  The `first` hint byte was
already appended to `raw` by whoever read it, so it is not re-appended. -/
def skip_spaces (first : Option Nat) (input : List Nat) (raw : List Nat) :
    Option (Option Nat × List Nat × List Nat) :=
  match first with
  | some c =>
    if c = 10 ∨ c = 13 then some (none, input, raw)
    else if c = 9 ∨ c = 32 then skip_spaces_loop input raw
    else some (some c, input, raw)
  | none => skip_spaces_loop input raw

/-- Loop body of `skip_line` (`postprocess.rs:211-218`). -/
def skip_line_loop : List Nat → List Nat → Option (List Nat × List Nat)
  | [], _ => none
  | c :: rest, raw =>
    if c = 10 ∨ c = 13 then some (rest, raw ++ [c])
    else skip_line_loop rest (raw ++ [c])

/-- `skip_line` (`postprocess.rs:201-219`). -/
def skip_line (first : Option Nat) (input : List Nat) (raw : List Nat) :
    Option (List Nat × List Nat) :=
  match first with
  | some c =>
    if c = 10 ∨ c = 13 then some (input, raw)
    else skip_line_loop input raw
  | none => skip_line_loop input raw

/-- `[A-Za-z0-9]`, the unquoted-token byte class of `read_token`. -/
def isAlnum (c : Nat) : Bool :=
  (97 ≤ c ∧ c ≤ 122) ∨ (65 ≤ c ∧ c ≤ 90) ∨ (48 ≤ c ∧ c ≤ 57)

/-- Quoted-token loop of `read_token` (`postprocess.rs:122-153`, `quote`
case): backslash escapes (`n`/`r`/`t` decode to LF/CR/TAB, anything else
to itself); on the closing quote one extra byte is read and returned as
the next hint.  Every byte read is appended to `raw`. -/
def read_token_quoted : List Nat → List Nat → List Nat → Bool →
    Option (Option Nat × List Nat × List Nat × List Nat)
  | [], _, _, _ => none
  | c :: rest, raw, token, escape =>
    if escape then
      let t : Nat := if c = 110 then 10 else if c = 114 then 13 else if c = 116 then 9 else c
      read_token_quoted rest (raw ++ [c]) (token ++ [t]) false
    else if c = 92 then read_token_quoted rest (raw ++ [c]) token true
    else if c = 34 then
      match rest with
      | [] => none
      | n :: rest2 => some (some n, rest2, raw ++ [c, n], token)
    else read_token_quoted rest (raw ++ [c]) (token ++ [c]) false

/-- Unquoted-token loop of `read_token` (`postprocess.rs:122-153`,
non-`quote` case): extend the token while `[A-Za-z0-9]`; the first
non-matching byte becomes the next hint (still appended to `raw`). -/
def read_token_unquoted : List Nat → List Nat → List Nat →
    Option (Option Nat × List Nat × List Nat × List Nat)
  | [], _, _ => none
  | c :: rest, raw, token =>
    if isAlnum c then read_token_unquoted rest (raw ++ [c]) (token ++ [c])
    else some (some c, rest, raw ++ [c], token)

/-- `read_token` (`postprocess.rs:110-159`): skip spaces, then read one
quoted or unquoted token.  Returns `(next_hint, remaining_input, raw,
token)`; an empty token with hint `none` when a newline ends the
directive first. -/
def read_token (first : Option Nat) (input : List Nat) (raw : List Nat) :
    Option (Option Nat × List Nat × List Nat × List Nat) :=
  match skip_spaces first input raw with
  | none => none
  | some (none, input1, raw1) => some (none, input1, raw1, [])
  | some (some fc, input1, raw1) =>
    if fc = 34 then read_token_quoted input1 raw1 [] false
    else read_token_unquoted input1 raw1 [fc]

/-- `read_directive_line` (`postprocess.rs:161-168`): a number token, a
file-name token, then `skip_line`. -/
def read_directive_line (first : Option Nat) (input : List Nat) (raw : List Nat) :
    Option (Directive × List Nat) :=
  match read_token first input raw with
  | none => none
  | some (next1, input1, raw1, _) =>
    match read_token next1 input1 raw1 with
    | none => none
    | some (next2, input2, raw2, file) =>
      match skip_line next2 input2 raw2 with
      | none => none
      | some (input3, raw3) => some (Directive.Line raw3 file, input3)

/-- `read_directive_pragma` (`postprocess.rs:170-177`): one token, then
`skip_line`; `hdrstop` yields `HdrStop`, anything else `Unknown`. -/
def read_directive_pragma (first : Option Nat) (input : List Nat) (raw : List Nat) :
    Option (Directive × List Nat) :=
  match read_token first input raw with
  | none => none
  | some (next, input1, raw1, token) =>
    match skip_line next input1 raw1 with
    | none => none
    | some (input2, raw2) =>
      if token = strBytes ("hdrstop") then some (Directive.HdrStop raw2, input2)
      else some (Directive.Unknown raw2, input2)

/-- `read_directive` (`postprocess.rs:96-108`): dispatch on the first
identifier after `#`. -/
def read_directive (first : Nat) (input : List Nat) : Option (Directive × List Nat) :=
  match read_token none input [first] with
  | none => none
  | some (next, input1, raw1, token) =>
    if token = strBytes ("line") then read_directive_line next input1 raw1
    else if token = strBytes ("pragma") then read_directive_pragma next input1 raw1
    else
      match skip_line next input1 raw1 with
      | none => none
      | some (input2, raw2) => some (Directive.Unknown raw2, input2)

/-- `"\\".replace` → `"/"` on a file name (`postprocess.rs:38,48`):
byte `92` becomes byte `47`. -/
def normSlash (s : List Nat) : List Nat :=
  s.map (fun c => if c = 92 then 47 else c)

/-- Split a byte string at every `/` (byte 47). -/
def splitSlash : List Nat → List (List Nat)
  | [] => [[]]
  | c :: rest =>
    if c = 47 then [] :: splitSlash rest
    else
      match splitSlash rest with
      | [] => [[c]]
      | g :: gs => (c :: g) :: gs

/-- Path components as computed by the old-`std` `Path::new` used at
`postprocess.rs:49`: split on `/`, dropping empty and `.` components. -/
def path_components (s : List Nat) : List (List Nat) :=
  (splitSlash s).filter (fun comp => decide (comp ≠ [] ∧ comp ≠ [46]))

/-- Model of `Path::new(file).ends_with_path(&Path::new(path))`
(`postprocess.rs:49`): `path`'s components are a suffix of `file`'s. -/
def ends_with_path (file : List Nat) (path : List Nat) : Bool :=
  List.isSuffixOf (path_components path) (path_components file)

/-- The marker test of `postprocess.rs:46-54`: the (`/`-normalised) file
equals the `/`-normalised marker, or ends with it as a path suffix. -/
def marker_matches (file : List Nat) (raw_path : List Nat) : Bool :=
  let path := normSlash raw_path
  decide (file = path) || ends_with_path file path

/-- The literal `#pragma hdrstop\n` injected at `postprocess.rs:42`. -/
def hdrstopLit : List Nat := strBytes ("#pragma hdrstop\n")

/-- Bytes this iteration writes: `raw`/`c` when `keep_headers`, nothing
otherwise (`postprocess.rs:24-33,59-61,67-79`). -/
def condEmit (keep : Bool) (l : List Nat) : List Nat :=
  if keep then l else []

/-- The main loop of `filter_preprocessed` (`postprocess.rs:20-81`),
fuel-indexed (the Rust loop runs until `break` or a read error; every
iteration consumes at least one input byte, so `input.length + 1` fuel is
never exhausted first).  State: `line_begin`, `entry_file`,
`header_found`.  Returns the bytes the loop wrote and the input left
unread at `break`; `none` models an `IoError` (end-of-file mid-loop). -/
def filter_loop (marker : Option (List Nat)) (keep : Bool) :
    Nat → Bool → Option (List Nat) → Bool → List Nat → Option (List Nat × List Nat)
  | 0, _, _, _, _ => none
  | _ + 1, _, _, _, [] => none
  | fuel + 1, lb, ef, hf, c :: input =>
    if c = 10 ∨ c = 13 then
      Option.map (fun r => (condEmit keep [c] ++ r.1, r.2))
        (filter_loop marker keep fuel true ef hf input)
    else if c = 9 ∨ c = 32 then
      Option.map (fun r => (condEmit keep [c] ++ r.1, r.2))
        (filter_loop marker keep fuel lb ef hf input)
    else if c = 35 ∧ lb = true then
      match read_directive c input with
      | none => none
      | some (d, input1) =>
        match d with
        | .Line raw raw_file =>
          let file := normSlash raw_file
          match ef with
          | some path =>
            if hf = true ∧ path = file then
              some (hdrstopLit ++ raw, input1)
            else
              let hf1 :=
                match marker with
                | some raw_path => if marker_matches file raw_path then true else hf
                | none => hf
              Option.map (fun r => (condEmit keep raw ++ r.1, r.2))
                (filter_loop marker keep fuel lb (some path) hf1 input1)
          | none =>
            Option.map (fun r => (condEmit keep raw ++ r.1, r.2))
              (filter_loop marker keep fuel lb (some file) hf input1)
        | .HdrStop raw => some (raw, input1)
        | .Unknown raw =>
          Option.map (fun r => (condEmit keep raw ++ r.1, r.2))
            (filter_loop marker keep fuel lb ef hf input1)
    else
      Option.map (fun r => (condEmit keep [c] ++ r.1, r.2))
        (filter_loop marker keep fuel false ef hf input)

/-- `filter_preprocessed` (`postprocess.rs:15-94`): run the loop from
`line_begin = true`, `entry_file = None`, `header_found = false`, then
copy the unread remainder of the stream verbatim (`postprocess.rs:83-92`). -/
def filter_preprocessed (marker : Option (List Nat)) (keep : Bool) (input : List Nat) :
    Option (List Nat) :=
  Option.map (fun r => r.1 ++ r.2)
    (filter_loop marker keep (input.length + 1) true none false input)

/-! ### The two-phase driver (`src/vs/compiler.rs`) -/

/-- Argument scope (data model consumed by the driver). -/
inductive Scope : Type where
  | Preprocessor | Compiler | Shared | Ignore
deriving DecidableEq, Repr

/-- Compiler argument: `Flag{scope,flag}`, `Param{scope,flag,value}`,
`Input{path}`, `Output{kind,path}`. -/
inductive Arg : Type where
  | Flag : Scope → String → Arg
  | Param : Scope → String → String → Arg
  | Input : String → Arg
  | Output : String → String → Arg
deriving DecidableEq, Repr

/-- The closure passed to `filter` in `preprocess_step`
(`compiler.rs:60-77`): keep `Preprocessor`/`Shared` flags and params,
rendered `/<flag>` resp. `/<flag><value>`; drop everything else. -/
def preprocess_arg_filter : Arg → Option String
  | .Flag scope flag =>
    match scope with
    | .Preprocessor | .Shared => some ("/" ++ flag)
    | .Ignore | .Compiler => none
  | .Param scope flag value =>
    match scope with
    | .Preprocessor | .Shared => some ("/" ++ flag ++ value)
    | .Ignore | .Compiler => none
  | .Input _ => none
  | .Output _ _ => none

/-- The closure passed to `filter` in `compile_prepare_step`
(`compiler.rs:110-129`): keep `Compiler`/`Shared`, and `Preprocessor`
only when `output_precompiled` is set. -/
def compile_arg_filter (output_precompiled : Bool) : Arg → Option String
  | .Flag scope flag =>
    match scope with
    | .Compiler | .Shared => some ("/" ++ flag)
    | .Preprocessor => if output_precompiled then some ("/" ++ flag) else none
    | .Ignore => none
  | .Param scope flag value =>
    match scope with
    | .Compiler | .Shared => some ("/" ++ flag ++ value)
    | .Preprocessor => if output_precompiled then some ("/" ++ flag ++ value) else none
    | .Ignore => none
  | .Input _ => none
  | .Output _ _ => none

/-- `utils::filter(&task.args, ...)` in `preprocess_step`: the preprocess
argv before the appended control flags (`/nologo`, `/T…`, `/E`, …). -/
def preprocess_args (args : List Arg) : List String :=
  args.filterMap preprocess_arg_filter

/-- `utils::filter(&task.args, ...)` in `compile_prepare_step`: the
compile argv before the appended control flags. -/
def compile_args (output_precompiled : Bool) (args : List Arg) : List String :=
  args.filterMap (compile_arg_filter output_precompiled)

/-- The rendering `/<flag>` / `/<flag><value>` applied to kept args. -/
def arg_render : Arg → String
  | .Flag _ flag => "/" ++ flag
  | .Param _ flag value => "/" ++ flag ++ value
  | .Input _ => ""
  | .Output _ _ => ""

/-- Scope test of the preprocess phase: `Preprocessor` or `Shared`
flags/params (never `Input`/`Output`). -/
def pre_scope_keep : Arg → Bool
  | .Flag s _ => decide (s = .Preprocessor ∨ s = .Shared)
  | .Param s _ _ => decide (s = .Preprocessor ∨ s = .Shared)
  | .Input _ => false
  | .Output _ _ => false

/-- Scope test of the compile phase: `Compiler` or `Shared`, plus
`Preprocessor` exactly when `output_precompiled` is set. -/
def compile_scope_keep (output_precompiled : Bool) : Arg → Bool
  | .Flag s _ =>
    decide (s = .Compiler ∨ s = .Shared ∨ (s = .Preprocessor ∧ output_precompiled = true))
  | .Param s _ _ =>
    decide (s = .Compiler ∨ s = .Shared ∨ (s = .Preprocessor ∧ output_precompiled = true))
  | .Input _ => false
  | .Output _ _ => false

/-- `OutputInfo { status, stdout, stderr }`. -/
structure OutputInfo : Type where
  status : Option Int
  stdout : List Nat
  stderr : List Nat
deriving DecidableEq, Repr

/-- `PreprocessResult`: filtered preprocessed bytes, or the failure
record. -/
inductive PreprocessResult : Type where
  | Success : List Nat → PreprocessResult
  | Failed : OutputInfo → PreprocessResult
deriving DecidableEq, Repr

/-- Tail of `preprocess_step` (`compiler.rs:90-106`) after the child
process's output is captured (`status_success`/`status_code` are
`output.status.success()`/`output.status.code()`).  On success, stdout is
run through the filter when either PCH option is set — with
`keep_headers = output_precompiled.is_some()` as at `compiler.rs:94` —
else copied verbatim; on failure, `Failed{status, stdout: vec![],
stderr}` is returned and stdout is dropped. -/
def preprocess_handle (status_success : Bool) (status_code : Option Int)
    (stdout stderr : List Nat) (input_pch output_pch : Bool)
    (marker : Option (List Nat)) : Option PreprocessResult :=
  if status_success then
    Option.map PreprocessResult.Success
      (if input_pch || output_pch then filter_preprocessed marker output_pch stdout
       else some stdout)
  else
    some (PreprocessResult.Failed
      { status := status_code, stdout := [], stderr := stderr })

/-! ### The diagnostic rewriter (`prepare_output`, `compiler.rs:189-207`)

The regex `(?m)^\S+[^:]*\(\d+\) : warning C4628: .*$\n?` is modelled
byte-level with the regex crate's leftmost-first (Perl-like, greedy)
match semantics: at a match start, `\S+` and `[^:]*` prefer the longest
run and backtrack downwards; `\d+` is committed (a shorter run cannot be
followed by `)`); `.*$\n?` always extends to the end of the line and
swallows the `\n` when present.  `replace_all` removes leftmost,
non-overlapping matches; `(?m)^` holds at offset 0 and after every
`\n`. -/

/-- `is_eol` (`compiler.rs:209-214`). -/
def is_eol (c : Nat) : Bool := c = 13 ∨ c = 10

/-- Byte-level `\s` (ASCII whitespace as matched inside `\S`). -/
def is_space_byte (c : Nat) : Bool :=
  c = 32 ∨ c = 9 ∨ c = 10 ∨ c = 13 ∨ c = 11 ∨ c = 12

/-- `\d`. -/
def is_digit (c : Nat) : Bool := 48 ≤ c ∧ c ≤ 57

/-- Length of the longest prefix whose bytes satisfy `p`. -/
def countWhile (p : Nat → Bool) : List Nat → Nat
  | [] => 0
  | c :: rest => if p c then countWhile p rest + 1 else 0

/-- The literal part of the pattern between `\)` and `.*`. -/
def warnLit : List Nat := strBytes (" : warning C4628: ")

/-- Match `\(\d+\) : warning C4628: .*$\n?` at the head of `s`,
returning the matched length. -/
def parseAfterAB (s : List Nat) : Option Nat :=
  match s with
  | 40 :: s1 =>
    let d := countWhile is_digit s1
    if d = 0 then none
    else
      match s1.drop d with
      | 41 :: s2 =>
        if s2.take warnLit.length = warnLit then
          let s3 := s2.drop warnLit.length
          let e := countWhile (fun c => decide (c ≠ 10)) s3
          some (1 + d + 1 + warnLit.length + (if s3.drop e = [] then e else e + 1))
        else none
      | _ => none
  | _ => none

/-- Greedy backtracking over the `[^:]*` part: try `b` bytes, largest
first. -/
def tryB (sa : List Nat) : Nat → Option Nat
  | 0 => parseAfterAB sa
  | b + 1 =>
    match parseAfterAB (sa.drop (b + 1)) with
    | some n => some (b + 1 + n)
    | none => tryB sa b

/-- Greedy backtracking over the `\S+` part: try `a ≥ 1` bytes, largest
first; for each, `[^:]*` from its maximal run downwards. -/
def tryA (s : List Nat) : Nat → Option Nat
  | 0 => none
  | a + 1 =>
    match tryB (s.drop (a + 1)) (countWhile (fun c => decide (c ≠ 58)) (s.drop (a + 1))) with
    | some n => some (a + 1 + n)
    | none => tryA s a

/-- Match the full C4628 pattern at the head of `s` (a position where
`(?m)^` holds), returning the matched length. -/
def matchC4628 (s : List Nat) : Option Nat :=
  tryA s (countWhile (fun c => !is_space_byte c) s)

/-- `Regex::replace_all(.., NoExpand(b""))`: scan left to right; at every
line start try the pattern, drop the match and continue after it
(line-startness after a match is judged by the last matched byte). -/
def replace_scan : Nat → Bool → List Nat → List Nat
  | 0, _, s => s
  | _ + 1, _, [] => []
  | fuel + 1, atLS, c :: rest =>
    if atLS then
      match matchC4628 (c :: rest) with
      | some n =>
        replace_scan fuel (decide ((c :: rest).getD (n - 1) 0 = 10)) ((c :: rest).drop n)
      | none => c :: replace_scan fuel (decide (c = 10)) rest
    else c :: replace_scan fuel (decide (c = 10)) rest

/-- `RE.replace_all(&buffer, NoExpand(b""))` (`compiler.rs:201-204`). -/
def replaceAll4628 (s : List Nat) : List Nat :=
  replace_scan (s.length + 1) true s

/-- First half of `prepare_output` (`compiler.rs:191-198`): drop the
temp-file basename echo when the buffer starts with it followed by an
end-of-line byte (and is strictly longer), then drop the run of
end-of-line bytes that follows; `buffer.split_off(begin)` keeps the
tail. -/
def strip_echo (line buffer : List Nat) : List Nat :=
  let b :=
    if line.length < buffer.length ∧ buffer.take line.length = line ∧
        is_eol (buffer.getD line.length 0) = true
    then line.length else 0
  (buffer.drop b).dropWhile (fun c => is_eol c)

/-- `prepare_output` (`compiler.rs:189-207`): strip the basename echo,
then on success erase the C4628 warning matches. -/
def prepare_output (line buffer : List Nat) (success : Bool) : List Nat :=
  if success then replaceAll4628 (strip_echo line buffer)
  else strip_echo line buffer

/-- `t` is obtained from `s` by deleting only segments at which the
C4628 pattern matches (at a line start, for exactly the matched length);
all other bytes are kept in order.  The `Bool` tracks whether the
current position is a line start. -/
inductive Deletes4628 : Bool → List Nat → List Nat → Prop where
  | nil : ∀ a, Deletes4628 a [] []
  | keep : ∀ (a : Bool) (c : Nat) (s t : List Nat),
      Deletes4628 (decide (c = 10)) s t → Deletes4628 a (c :: s) (c :: t)
  | del : ∀ (s t : List Nat) (n : Nat), matchC4628 s = some n →
      Deletes4628 (decide (s.getD (n - 1) 0 = 10)) (s.drop n) t →
      Deletes4628 true s t

/-! ### Concrete streams (the repository's own test vectors) -/

/-- Input of `test_filter_precompiled_keep`/`..._remove`
(`postprocess.rs:221-266`), with `void hello();` resp. the two
declarations in the header region. -/
def tKeepIn : String := "#line 1 \"sample.cpp\"\n#line 1 \"e:/work/octobuild/test_cl/sample header.h\"\n# pragma once\nvoid hello();\n#line 2 \"sample.cpp\"\n\nint main(int argc, char **argv) \x7b\n\treturn 0;\n\x7d\n"

/-- Expected output of `test_filter_precompiled_keep`. -/
def tKeepOut : String := "#line 1 \"sample.cpp\"\n#line 1 \"e:/work/octobuild/test_cl/sample header.h\"\n# pragma once\nvoid hello();\n#pragma hdrstop\n#line 2 \"sample.cpp\"\n\nint main(int argc, char **argv) \x7b\n\treturn 0;\n\x7d\n"

/-- Input of `test_filter_precompiled_remove`. -/
def tRemoveIn : String := "#line 1 \"sample.cpp\"\n#line 1 \"e:/work/octobuild/test_cl/sample header.h\"\n# pragma once\nvoid hello1();\nvoid hello2();\n#line 2 \"sample.cpp\"\n\nint main(int argc, char **argv) \x7b\n\treturn 0;\n\x7d\n"

/-- Expected output of `test_filter_precompiled_remove`. -/
def tRemoveOut : String := "#pragma hdrstop\n#line 2 \"sample.cpp\"\n\nint main(int argc, char **argv) \x7b\n\treturn 0;\n\x7d\n"

/-- The marker of both tests. -/
def sampleMarker : Option (List Nat) := some (strBytes ("sample header.h"))

/-- Stdout of the `test_prepare_output_c4628_*` tests
(`compiler.rs:244-268`). -/
def c4628In : String := "BLABLABLA\nfoo.c(41) : warning C4411: foo bar\nfoo.c(42) : warning C4628: foo bar\nfoo.c(43) : warning C4433: foo bar\n"

/-- Expected rewritten stdout on success (C4628 line removed). -/
def c4628OutT : String := "foo.c(41) : warning C4411: foo bar\nfoo.c(43) : warning C4433: foo bar\n"

/-- Expected rewritten stdout on failure (C4628 line kept). -/
def c4628OutF : String := "foo.c(41) : warning C4411: foo bar\nfoo.c(42) : warning C4628: foo bar\nfoo.c(43) : warning C4433: foo bar\n"

/-- The basename echo used by the `prepare_output` tests. -/
def bbEcho : List Nat := strBytes ("BLABLABLA")

/-- A stdout in which the basename line occurs twice: the second
application of `prepare_output` strips again. -/
def c9buf : List Nat := strBytes ("BLABLABLA\nBLABLABLA\nfoo\n")

/-! ### Raw-byte accounting for the lexer

Every lexer routine appends to `raw` exactly the bytes it consumes from
the input, in consumption order. -/

theorem skip_spaces_loop_consumed :
    ∀ (input raw : List Nat) (h : Option Nat) (i r : List Nat),
      skip_spaces_loop input raw = some (h, i, r) →
      ∃ cons, input = cons ++ i ∧ r = raw ++ cons := by
  intro input
  induction input with
  | nil => intro raw h i r he; simp [skip_spaces_loop] at he
  | cons c rest ih =>
    intro raw h i r he
    simp only [skip_spaces_loop] at he
    split at he
    · simp only [Option.some.injEq, Prod.mk.injEq] at he
      obtain ⟨-, rfl, rfl⟩ := he
      exact ⟨[c], by simp, by simp⟩
    · split at he
      · obtain ⟨cons, hc1, hc2⟩ := ih (raw ++ [c]) h i r he
        exact ⟨c :: cons, by simp [hc1], by simp [hc2]⟩
      · simp only [Option.some.injEq, Prod.mk.injEq] at he
        obtain ⟨-, rfl, rfl⟩ := he
        exact ⟨[c], by simp, by simp⟩

theorem skip_spaces_consumed :
    ∀ (first : Option Nat) (input raw : List Nat) (h : Option Nat) (i r : List Nat),
      skip_spaces first input raw = some (h, i, r) →
      ∃ cons, input = cons ++ i ∧ r = raw ++ cons := by
  intro first input raw h i r he
  match first with
  | none => exact skip_spaces_loop_consumed input raw h i r he
  | some c =>
    simp only [skip_spaces] at he
    split at he
    · simp only [Option.some.injEq, Prod.mk.injEq] at he
      obtain ⟨-, rfl, rfl⟩ := he
      exact ⟨[], by simp, by simp⟩
    · split at he
      · exact skip_spaces_loop_consumed input raw h i r he
      · simp only [Option.some.injEq, Prod.mk.injEq] at he
        obtain ⟨-, rfl, rfl⟩ := he
        exact ⟨[], by simp, by simp⟩

theorem skip_line_loop_consumed :
    ∀ (input raw i r : List Nat),
      skip_line_loop input raw = some (i, r) →
      ∃ cons, input = cons ++ i ∧ r = raw ++ cons := by
  intro input
  induction input with
  | nil => intro raw i r he; simp [skip_line_loop] at he
  | cons c rest ih =>
    intro raw i r he
    simp only [skip_line_loop] at he
    split at he
    · simp only [Option.some.injEq, Prod.mk.injEq] at he
      obtain ⟨rfl, rfl⟩ := he
      exact ⟨[c], by simp, by simp⟩
    · obtain ⟨cons, hc1, hc2⟩ := ih (raw ++ [c]) i r he
      exact ⟨c :: cons, by simp [hc1], by simp [hc2]⟩

theorem skip_line_consumed :
    ∀ (first : Option Nat) (input raw i r : List Nat),
      skip_line first input raw = some (i, r) →
      ∃ cons, input = cons ++ i ∧ r = raw ++ cons := by
  intro first input raw i r he
  match first with
  | none => exact skip_line_loop_consumed input raw i r he
  | some c =>
    simp only [skip_line] at he
    split at he
    · simp only [Option.some.injEq, Prod.mk.injEq] at he
      obtain ⟨rfl, rfl⟩ := he
      exact ⟨[], by simp, by simp⟩
    · exact skip_line_loop_consumed input raw i r he

theorem read_token_quoted_consumed :
    ∀ (input raw token : List Nat) (esc : Bool) (h : Option Nat) (i r tok : List Nat),
      read_token_quoted input raw token esc = some (h, i, r, tok) →
      ∃ cons, input = cons ++ i ∧ r = raw ++ cons := by
  intro input
  induction input with
  | nil => intro raw token esc h i r tok he; simp [read_token_quoted] at he
  | cons c rest ih =>
    intro raw token esc h i r tok he
    simp only [read_token_quoted] at he
    split at he
    · obtain ⟨cons, hc1, hc2⟩ := ih _ _ _ h i r tok he
      exact ⟨c :: cons, by simp [hc1], by simp [hc2]⟩
    · split at he
      · obtain ⟨cons, hc1, hc2⟩ := ih _ _ _ h i r tok he
        exact ⟨c :: cons, by simp [hc1], by simp [hc2]⟩
      · split at he
        · match rest, he with
          | n :: rest2, he =>
            simp only [Option.some.injEq, Prod.mk.injEq] at he
            obtain ⟨-, rfl, rfl, -⟩ := he
            exact ⟨[c, n], by simp, by simp⟩
        · obtain ⟨cons, hc1, hc2⟩ := ih _ _ _ h i r tok he
          exact ⟨c :: cons, by simp [hc1], by simp [hc2]⟩

theorem read_token_unquoted_consumed :
    ∀ (input raw token : List Nat) (h : Option Nat) (i r tok : List Nat),
      read_token_unquoted input raw token = some (h, i, r, tok) →
      ∃ cons, input = cons ++ i ∧ r = raw ++ cons := by
  intro input
  induction input with
  | nil => intro raw token h i r tok he; simp [read_token_unquoted] at he
  | cons c rest ih =>
    intro raw token h i r tok he
    simp only [read_token_unquoted] at he
    split at he
    · obtain ⟨cons, hc1, hc2⟩ := ih _ _ h i r tok he
      exact ⟨c :: cons, by simp [hc1], by simp [hc2]⟩
    · simp only [Option.some.injEq, Prod.mk.injEq] at he
      obtain ⟨-, rfl, rfl, -⟩ := he
      exact ⟨[c], by simp, by simp⟩

theorem read_token_consumed :
    ∀ (first : Option Nat) (input raw : List Nat) (h : Option Nat) (i r tok : List Nat),
      read_token first input raw = some (h, i, r, tok) →
      ∃ cons, input = cons ++ i ∧ r = raw ++ cons := by
  intro first input raw h i r tok he
  simp only [read_token] at he
  split at he
  · exact absurd he (by simp)
  · next heq =>
    simp only [Option.some.injEq, Prod.mk.injEq] at he
    obtain ⟨-, rfl, rfl, -⟩ := he
    exact skip_spaces_consumed first input raw _ _ _ heq
  · next input1 raw1 heq =>
    obtain ⟨cons0, hc0, hr0⟩ := skip_spaces_consumed first input raw _ _ _ heq
    split at he
    · obtain ⟨cons1, hc1, hr1⟩ := read_token_quoted_consumed input1 raw1 [] false h i r tok he
      exact ⟨cons0 ++ cons1, by simp [hc0, hc1], by simp [hr0, hr1]⟩
    · obtain ⟨cons1, hc1, hr1⟩ := read_token_unquoted_consumed input1 raw1 _ h i r tok he
      exact ⟨cons0 ++ cons1, by simp [hc0, hc1], by simp [hr0, hr1]⟩

theorem read_directive_line_consumed :
    ∀ (first : Option Nat) (input raw : List Nat) (d : Directive) (i : List Nat),
      read_directive_line first input raw = some (d, i) →
      ∃ cons, input = cons ++ i ∧ d.rawOf = raw ++ cons := by
  intro first input raw d i he
  simp only [read_directive_line] at he
  split at he
  · exact absurd he (by simp)
  · next next1 input1 raw1 tok1 heq1 =>
    split at he
    · exact absurd he (by simp)
    · next next2 input2 raw2 file heq2 =>
      split at he
      · exact absurd he (by simp)
      · next input3 raw3 heq3 =>
        simp only [Option.some.injEq, Prod.mk.injEq] at he
        obtain ⟨rfl, rfl⟩ := he
        obtain ⟨c1, hi1, hr1⟩ := read_token_consumed first input raw _ _ _ _ heq1
        obtain ⟨c2, hi2, hr2⟩ := read_token_consumed next1 input1 raw1 _ _ _ _ heq2
        obtain ⟨c3, hi3, hr3⟩ := skip_line_consumed next2 input2 raw2 _ _ heq3
        exact ⟨c1 ++ c2 ++ c3, by simp [hi1, hi2, hi3],
          by simp [Directive.rawOf, hr1, hr2, hr3]⟩

theorem read_directive_pragma_consumed :
    ∀ (first : Option Nat) (input raw : List Nat) (d : Directive) (i : List Nat),
      read_directive_pragma first input raw = some (d, i) →
      ∃ cons, input = cons ++ i ∧ d.rawOf = raw ++ cons := by
  intro first input raw d i he
  simp only [read_directive_pragma] at he
  split at he
  · exact absurd he (by simp)
  · next next1 input1 raw1 tok1 heq1 =>
    split at he
    · exact absurd he (by simp)
    · next input2 raw2 heq2 =>
      obtain ⟨c1, hi1, hr1⟩ := read_token_consumed first input raw _ _ _ _ heq1
      obtain ⟨c2, hi2, hr2⟩ := skip_line_consumed next1 input1 raw1 _ _ heq2
      split at he <;>
      · simp only [Option.some.injEq, Prod.mk.injEq] at he
        obtain ⟨rfl, rfl⟩ := he
        exact ⟨c1 ++ c2, by simp [hi1, hi2], by simp [Directive.rawOf, hr1, hr2]⟩

/-- `read_directive` appends to the initial `raw = [first]` exactly the
bytes it consumes: the directive's raw buffer is the consumed prefix of
the input, with the `#` byte in front. -/
theorem read_directive_consumed :
    ∀ (first : Nat) (input : List Nat) (d : Directive) (i : List Nat),
      read_directive first input = some (d, i) →
      ∃ cons, input = cons ++ i ∧ d.rawOf = first :: cons := by
  intro first input d i he
  simp only [read_directive] at he
  split at he
  · exact absurd he (by simp)
  · next next1 input1 raw1 tok1 heq1 =>
    obtain ⟨c1, hi1, hr1⟩ := read_token_consumed none input [first] _ _ _ _ heq1
    split at he
    · obtain ⟨c2, hi2, hr2⟩ := read_directive_line_consumed next1 input1 raw1 d i he
      exact ⟨c1 ++ c2, by simp [hi1, hi2], by simp [hr2, hr1]⟩
    · split at he
      · obtain ⟨c2, hi2, hr2⟩ := read_directive_pragma_consumed next1 input1 raw1 d i he
        exact ⟨c1 ++ c2, by simp [hi1, hi2], by simp [hr2, hr1]⟩
      · split at he
        · exact absurd he (by simp)
        · next input2 raw2 heq2 =>
          simp only [Option.some.injEq, Prod.mk.injEq] at he
          obtain ⟨rfl, rfl⟩ := he
          obtain ⟨c2, hi2, hr2⟩ := skip_line_consumed next1 input1 raw1 _ _ heq2
          exact ⟨c1 ++ c2, by simp [hi1, hi2], by simp [Directive.rawOf, hr2, hr1]⟩

theorem condEmit_append (keep : Bool) (a b : List Nat) :
    condEmit keep (a ++ b) = condEmit keep a ++ condEmit keep b := by
  cases keep <;> simp [condEmit]

theorem condEmit_cons (keep : Bool) (c : Nat) (l : List Nat) :
    condEmit keep (c :: l) = condEmit keep [c] ++ condEmit keep l := by
  cases keep <;> simp [condEmit]

/-- Shape of every successful run of the filter loop: the input splits as
`cons ++ brk ++ rest` where `cons` is what the loop passed over (emitted
verbatim iff `keep_headers`), `brk = 35 :: t` is the raw text of the
directive at which the loop broke, and `rest` is the unread remainder.
The break was either the injection site — a `#line` directive re-parsed
by `read_directive` itself, preceded in the output by the literal
`#pragma hdrstop\n` — or an explicit `#pragma hdrstop` directive, whose
raw bytes are emitted with no injection. -/
theorem filter_loop_spec (marker : Option (List Nat)) (keep : Bool) :
    ∀ (fuel : Nat) (lb : Bool) (ef : Option (List Nat)) (hf : Bool)
      (input o rest : List Nat),
      filter_loop marker keep fuel lb ef hf input = some (o, rest) →
      ∃ cons t,
        input = cons ++ (35 :: t) ++ rest ∧
        ((∃ file, read_directive 35 (t ++ rest) = some (Directive.Line (35 :: t) file, rest) ∧
            o = condEmit keep cons ++ hdrstopLit ++ (35 :: t))
         ∨ (read_directive 35 (t ++ rest) = some (Directive.HdrStop (35 :: t), rest) ∧
            o = condEmit keep cons ++ (35 :: t))) := by
  intro fuel
  induction fuel with
  | zero => intro lb ef hf input o rest he; simp [filter_loop] at he
  | succ fuel ih =>
    intro lb ef hf input o rest he
    match input with
    | [] => simp [filter_loop] at he
    | c :: input0 =>
      simp only [filter_loop] at he
      split at he
      · obtain ⟨⟨o1, r1⟩, hrec, hmk⟩ := Option.map_eq_some'.mp he
        simp only [Prod.mk.injEq] at hmk
        obtain ⟨rfl, rfl⟩ := hmk
        obtain ⟨cons, t, hin, hdis⟩ := ih _ _ _ _ _ _ hrec
        refine ⟨c :: cons, t, by simp [hin], ?_⟩
        rcases hdis with ⟨file, hrd, rfl⟩ | ⟨hrd, rfl⟩
        · exact Or.inl ⟨file, hrd, by cases keep <;> simp [condEmit]⟩
        · exact Or.inr ⟨hrd, by cases keep <;> simp [condEmit]⟩
      · split at he
        · obtain ⟨⟨o1, r1⟩, hrec, hmk⟩ := Option.map_eq_some'.mp he
          simp only [Prod.mk.injEq] at hmk
          obtain ⟨rfl, rfl⟩ := hmk
          obtain ⟨cons, t, hin, hdis⟩ := ih _ _ _ _ _ _ hrec
          refine ⟨c :: cons, t, by simp [hin], ?_⟩
          rcases hdis with ⟨file, hrd, rfl⟩ | ⟨hrd, rfl⟩
          · exact Or.inl ⟨file, hrd, by cases keep <;> simp [condEmit]⟩
          · exact Or.inr ⟨hrd, by cases keep <;> simp [condEmit]⟩
        · split at he
          · next hgate =>
            obtain ⟨rfl, rfl⟩ := hgate
            split at he
            · exact absurd he (by simp)
            · next d input1 hrd =>
              obtain ⟨consD, hinD, hrawD⟩ := read_directive_consumed 35 input0 d input1 hrd
              split at he
              · next raw raw_file =>
                simp only [Directive.rawOf] at hrawD
                subst hrawD
                split at he
                · next path =>
                  split at he
                  · simp only [Option.some.injEq, Prod.mk.injEq] at he
                    obtain ⟨rfl, rfl⟩ := he
                    subst hinD
                    exact ⟨[], consD, by simp,
                      Or.inl ⟨raw_file, hrd, by simp [condEmit]⟩⟩
                  · obtain ⟨⟨o1, r1⟩, hrec, hmk⟩ := Option.map_eq_some'.mp he
                    simp only [Prod.mk.injEq] at hmk
                    obtain ⟨rfl, rfl⟩ := hmk
                    obtain ⟨cons, t, hin, hdis⟩ := ih _ _ _ _ _ _ hrec
                    refine ⟨(35 :: consD) ++ cons, t, by simp [hinD, hin], ?_⟩
                    rcases hdis with ⟨file, hrd2, rfl⟩ | ⟨hrd2, rfl⟩
                    · exact Or.inl ⟨file, hrd2, by cases keep <;> simp [condEmit]⟩
                    · exact Or.inr ⟨hrd2, by cases keep <;> simp [condEmit]⟩
                · obtain ⟨⟨o1, r1⟩, hrec, hmk⟩ := Option.map_eq_some'.mp he
                  simp only [Prod.mk.injEq] at hmk
                  obtain ⟨rfl, rfl⟩ := hmk
                  obtain ⟨cons, t, hin, hdis⟩ := ih _ _ _ _ _ _ hrec
                  refine ⟨(35 :: consD) ++ cons, t, by simp [hinD, hin], ?_⟩
                  rcases hdis with ⟨file, hrd2, rfl⟩ | ⟨hrd2, rfl⟩
                  · exact Or.inl ⟨file, hrd2, by cases keep <;> simp [condEmit]⟩
                  · exact Or.inr ⟨hrd2, by cases keep <;> simp [condEmit]⟩
              · next raw =>
                simp only [Directive.rawOf] at hrawD
                subst hrawD
                simp only [Option.some.injEq, Prod.mk.injEq] at he
                obtain ⟨rfl, rfl⟩ := he
                subst hinD
                exact ⟨[], consD, by simp, Or.inr ⟨hrd, by simp [condEmit]⟩⟩
              · next raw =>
                simp only [Directive.rawOf] at hrawD
                subst hrawD
                obtain ⟨⟨o1, r1⟩, hrec, hmk⟩ := Option.map_eq_some'.mp he
                simp only [Prod.mk.injEq] at hmk
                obtain ⟨rfl, rfl⟩ := hmk
                obtain ⟨cons, t, hin, hdis⟩ := ih _ _ _ _ _ _ hrec
                refine ⟨(35 :: consD) ++ cons, t, by simp [hinD, hin], ?_⟩
                rcases hdis with ⟨file, hrd2, rfl⟩ | ⟨hrd2, rfl⟩
                · exact Or.inl ⟨file, hrd2, by cases keep <;> simp [condEmit]⟩
                · exact Or.inr ⟨hrd2, by cases keep <;> simp [condEmit]⟩
          · obtain ⟨⟨o1, r1⟩, hrec, hmk⟩ := Option.map_eq_some'.mp he
            simp only [Prod.mk.injEq] at hmk
            obtain ⟨rfl, rfl⟩ := hmk
            obtain ⟨cons, t, hin, hdis⟩ := ih _ _ _ _ _ _ hrec
            refine ⟨c :: cons, t, by simp [hin], ?_⟩
            rcases hdis with ⟨file, hrd, rfl⟩ | ⟨hrd, rfl⟩
            · exact Or.inl ⟨file, hrd, by cases keep <;> simp [condEmit]⟩
            · exact Or.inr ⟨hrd, by cases keep <;> simp [condEmit]⟩

/-- C1.  Consumer-mode byte-exactness: a successful run of
`filter_preprocessed` with `keep_headers = true` either reproduces the
input unchanged (explicit-`hdrstop` break), or — at the injected break,
the case the claim describes — splits the input as `pre ++ rest` with the
output `pre ++ #pragma hdrstop\n ++ rest`: everything emitted before the
injected literal is a verbatim prefix of the input, everything after is
the verbatim remainder, and the remainder begins with the returning
`#line` directive (as re-parsed by `read_directive` itself). -/
theorem filter_keep_byte_exact (marker : Option (List Nat)) (input out : List Nat)
    (h : filter_preprocessed marker true input = some out) :
    out = input ∨
    ∃ pre t rem file,
      input = pre ++ (35 :: t) ++ rem ∧
      out = pre ++ hdrstopLit ++ (35 :: t) ++ rem ∧
      read_directive 35 (t ++ rem) = some (Directive.Line (35 :: t) file, rem) := by
  simp only [filter_preprocessed] at h
  obtain ⟨⟨o, rest⟩, hloop, hmk⟩ := Option.map_eq_some'.mp h
  obtain ⟨cons, t, hin, hdis⟩ := filter_loop_spec marker true _ _ _ _ _ _ _ hloop
  simp only at hmk
  subst hmk
  rcases hdis with ⟨file, hrd, rfl⟩ | ⟨hrd, rfl⟩
  · exact Or.inr ⟨cons, t, rest, file, hin, by simp [condEmit], hrd⟩
  · exact Or.inl (by simp [condEmit, hin])

set_option maxRecDepth 10000 in
/-- C1 witness: the repository's consumer-mode test vector. -/
theorem filter_keep_byte_exact_witness :
    filter_preprocessed sampleMarker true (strBytes tKeepIn) = some (strBytes tKeepOut) ∧
    (strBytes tKeepOut = strBytes tKeepIn ∨
     ∃ pre t rem file,
       strBytes tKeepIn = pre ++ (35 :: t) ++ rem ∧
       strBytes tKeepOut = pre ++ hdrstopLit ++ (35 :: t) ++ rem ∧
       read_directive 35 (t ++ rem) = some (Directive.Line (35 :: t) file, rem)) :=
  ⟨by rfl, filter_keep_byte_exact sampleMarker (strBytes tKeepIn) (strBytes tKeepOut) (by rfl)⟩

/-- C2.  PCH-create mode: a successful run with `keep_headers = false`
emits nothing from before the break point; the output is either the
injected `#pragma hdrstop\n` followed by the raw bytes of the triggering
re-entry `#line` directive and the verbatim remainder, or (explicit
branch) just the raw `#pragma hdrstop` directive and the remainder.  In
the injection case the output begins with `#pragma hdrstop\n`. -/
theorem filter_create_emits_only_hdrstop (marker : Option (List Nat)) (input out : List Nat)
    (h : filter_preprocessed marker false input = some out) :
    ∃ pre t rem,
      input = pre ++ (35 :: t) ++ rem ∧
      ((∃ file, out = hdrstopLit ++ (35 :: t) ++ rem ∧
          read_directive 35 (t ++ rem) = some (Directive.Line (35 :: t) file, rem))
       ∨ (out = (35 :: t) ++ rem ∧
          read_directive 35 (t ++ rem) = some (Directive.HdrStop (35 :: t), rem))) := by
  simp only [filter_preprocessed] at h
  obtain ⟨⟨o, rest⟩, hloop, hmk⟩ := Option.map_eq_some'.mp h
  obtain ⟨cons, t, hin, hdis⟩ := filter_loop_spec marker false _ _ _ _ _ _ _ hloop
  simp only at hmk
  subst hmk
  rcases hdis with ⟨file, hrd, rfl⟩ | ⟨hrd, rfl⟩
  · exact ⟨cons, t, rest, hin, Or.inl ⟨file, by simp [condEmit], hrd⟩⟩
  · exact ⟨cons, t, rest, hin, Or.inr ⟨by simp [condEmit], hrd⟩⟩

set_option maxRecDepth 10000 in
/-- C2 witness: the repository's creator-mode test vector (output begins
with `#pragma hdrstop\n`). -/
theorem filter_create_emits_only_hdrstop_witness :
    filter_preprocessed sampleMarker false (strBytes tRemoveIn) = some (strBytes tRemoveOut) ∧
    ∃ pre t rem,
      strBytes tRemoveIn = pre ++ (35 :: t) ++ rem ∧
      ((∃ file, strBytes tRemoveOut = hdrstopLit ++ (35 :: t) ++ rem ∧
          read_directive 35 (t ++ rem) = some (Directive.Line (35 :: t) file, rem))
       ∨ (strBytes tRemoveOut = (35 :: t) ++ rem ∧
          read_directive 35 (t ++ rem) = some (Directive.HdrStop (35 :: t), rem))) :=
  ⟨by rfl, filter_create_emits_only_hdrstop sampleMarker (strBytes tRemoveIn)
    (strBytes tRemoveOut) (by rfl)⟩

theorem skip_spaces_loop_run :
    ∀ (sp : List Nat) (c : Nat) (rest raw : List Nat),
      (∀ b ∈ sp, b = 32 ∨ b = 9) → ¬(c = 10 ∨ c = 13) → ¬(c = 9 ∨ c = 32) →
      skip_spaces_loop (sp ++ c :: rest) raw = some (some c, rest, raw ++ sp ++ [c]) := by
  intro sp
  induction sp with
  | nil =>
    intro c rest raw _ hc1 hc2
    simp [skip_spaces_loop, hc1, hc2]
  | cons b sp ih =>
    intro c rest raw hsp hc1 hc2
    have hb := hsp b (by simp)
    have hb1 : ¬(b = 10 ∨ b = 13) := by rcases hb with rfl | rfl <;> simp
    have hb2 : b = 9 ∨ b = 32 := hb.symm
    simp only [List.cons_append, skip_spaces_loop, if_neg hb1, if_pos hb2, List.append_eq]
    rw [ih c rest (raw ++ [b]) (fun x hx => hsp x (by simp [hx])) hc1 hc2]
    simp

theorem read_token_unquoted_run :
    ∀ (w : List Nat) (c : Nat) (rest raw tok : List Nat),
      (∀ b ∈ w, isAlnum b = true) → isAlnum c = false →
      read_token_unquoted (w ++ c :: rest) raw tok =
        some (some c, rest, raw ++ w ++ [c], tok ++ w) := by
  intro w
  induction w with
  | nil =>
    intro c rest raw tok _ hc
    simp [read_token_unquoted, hc]
  | cons b w ih =>
    intro c rest raw tok hw hc
    have hb := hw b (by simp)
    simp only [List.cons_append, read_token_unquoted, hb, if_pos, List.append_eq]
    rw [ih c rest (raw ++ [b]) (tok ++ [b]) (fun x hx => hw x (by simp [hx])) hc]
    simp

/-- Parsing `# pragma hdrstop` with arbitrary interior runs of spaces and
tabs: `read_directive` recognises it as `HdrStop`, with `raw` the full
directive text (terminating newline included) and the input after the
newline untouched. -/
theorem read_directive_hdrstop_run (sp1 sp2 tail : List Nat)
    (h1 : ∀ b ∈ sp1, b = 32 ∨ b = 9) (h2 : ∀ b ∈ sp2, b = 32 ∨ b = 9)
    (h3 : sp2 ≠ []) :
    read_directive 35
      (sp1 ++ strBytes ("pragma") ++ sp2 ++ strBytes ("hdrstop") ++ 10 :: tail) =
    some (Directive.HdrStop
      (35 :: (sp1 ++ strBytes ("pragma") ++ sp2 ++ strBytes ("hdrstop") ++ [10])), tail) := by
  match sp2, h3 with
  | b2 :: sp2t, _ =>
    have hb2 := h2 b2 (by simp)
    have hb2nl : ¬((b2 : Nat) = 10 ∨ b2 = 13) := by rcases hb2 with rfl | rfl <;> simp
    have hb2sp : (b2 : Nat) = 9 ∨ b2 = 32 := hb2.symm
    have hb2al : isAlnum b2 = false := by rcases hb2 with rfl | rfl <;> rfl
    have e1 : sp1 ++ strBytes ("pragma") ++ (b2 :: sp2t) ++ strBytes ("hdrstop") ++ 10 :: tail
        = sp1 ++ 112 :: ((strBytes ("ragma") ++ (b2 :: (sp2t ++ strBytes ("hdrstop") ++ 10 :: tail)))) := by
      simp [strBytes]
    rw [read_directive, read_token, skip_spaces, e1,
      skip_spaces_loop_run sp1 112 _ [35] h1 (by simp) (by simp)]
    have e2 : strBytes ("ragma") ++ (b2 :: (sp2t ++ strBytes ("hdrstop") ++ 10 :: tail))
        = strBytes ("ragma") ++ b2 :: (sp2t ++ strBytes ("hdrstop") ++ 10 :: tail) := rfl
    simp only [if_neg (by decide : ¬(112 : Nat) = 34)]
    rw [read_token_unquoted_run (strBytes ("ragma")) b2 _ _ _ (by decide) hb2al]
    simp only [if_neg (by decide : ¬[(112 : Nat)] ++ strBytes ("ragma") = strBytes ("line")),
      if_pos (by decide : [(112 : Nat)] ++ strBytes ("ragma") = strBytes ("pragma"))]
    rw [read_directive_pragma, read_token, skip_spaces]
    simp only [if_neg hb2nl, if_pos hb2sp]
    have e3 : sp2t ++ strBytes ("hdrstop") ++ 10 :: tail
        = sp2t ++ 104 :: (strBytes ("drstop") ++ 10 :: tail) := by simp [strBytes]
    rw [e3, skip_spaces_loop_run sp2t 104 _ _
      (fun x hx => h2 x (by simp [hx])) (by simp) (by simp)]
    simp only [if_neg (by decide : ¬(104 : Nat) = 34)]
    rw [read_token_unquoted_run (strBytes ("drstop")) 10 tail _ _ (by decide) (by rfl)]
    simp only [skip_line, if_pos (by simp : (10 : Nat) = 10 ∨ (10 : Nat) = 13)]
    simp only [if_pos (by decide : [(104 : Nat)] ++ strBytes ("drstop") = strBytes ("hdrstop"))]
    simp [strBytes]

/-- C3.  Explicit hdrstop: at the beginning of a line (any reachable
loop state with `line_begin = true`), a `#pragma hdrstop` directive with
arbitrary interior runs of spaces/tabs makes the filter emit the
directive's raw bytes unconditionally — for both values of
`keep_headers` — and terminate the loop with the remaining input unread;
`filter_preprocessed` then appends that remainder verbatim. -/
theorem filter_explicit_hdrstop (marker : Option (List Nat)) (keep : Bool)
    (ef : Option (List Nat)) (hf : Bool) (fuel : Nat) (sp1 sp2 tail : List Nat)
    (h1 : ∀ b ∈ sp1, b = 32 ∨ b = 9) (h2 : ∀ b ∈ sp2, b = 32 ∨ b = 9)
    (h3 : sp2 ≠ []) :
    filter_loop marker keep (fuel + 1) true ef hf
      (35 :: (sp1 ++ strBytes ("pragma") ++ sp2 ++ strBytes ("hdrstop") ++ 10 :: tail)) =
      some (35 :: (sp1 ++ strBytes ("pragma") ++ sp2 ++ strBytes ("hdrstop") ++ [10]), tail) ∧
    filter_preprocessed marker keep
      (35 :: (sp1 ++ strBytes ("pragma") ++ sp2 ++ strBytes ("hdrstop") ++ 10 :: tail)) =
      some ((35 :: (sp1 ++ strBytes ("pragma") ++ sp2 ++ strBytes ("hdrstop") ++ [10])) ++ tail) := by
  have hloop : ∀ (f : Nat) (ef1 : Option (List Nat)) (hf1 : Bool),
      filter_loop marker keep (f + 1) true ef1 hf1
      (35 :: (sp1 ++ strBytes ("pragma") ++ sp2 ++ strBytes ("hdrstop") ++ 10 :: tail)) =
      some (35 :: (sp1 ++ strBytes ("pragma") ++ sp2 ++ strBytes ("hdrstop") ++ [10]), tail) := by
    intro f ef1 hf1
    simp only [filter_loop]
    rw [read_directive_hdrstop_run sp1 sp2 tail h1 h2 h3]
    simp
  refine ⟨hloop fuel ef hf, ?_⟩
  simp only [filter_preprocessed, List.length_cons]
  rw [hloop _ none false]
  rfl

/-- C3 witness: `#` `pragma` and `hdrstop` separated by space runs, in
creator mode (`keep_headers = false`), from a mid-stream state. -/
theorem filter_explicit_hdrstop_witness :
    ((∀ b ∈ [(32 : Nat)], b = 32 ∨ b = 9) ∧ (∀ b ∈ [(32 : Nat), 32], b = 32 ∨ b = 9) ∧
      ([(32 : Nat), 32] ≠ ([] : List Nat))) ∧
    (filter_loop none false (0 + 1) true (some (strBytes ("sample.cpp"))) false
      (35 :: ([32] ++ strBytes ("pragma") ++ [32, 32] ++ strBytes ("hdrstop") ++
        10 :: strBytes ("void data();\n"))) =
      some (35 :: ([32] ++ strBytes ("pragma") ++ [32, 32] ++ strBytes ("hdrstop") ++ [10]),
        strBytes ("void data();\n")) ∧
    filter_preprocessed none false
      (35 :: ([32] ++ strBytes ("pragma") ++ [32, 32] ++ strBytes ("hdrstop") ++
        10 :: strBytes ("void data();\n"))) =
      some ((35 :: ([32] ++ strBytes ("pragma") ++ [32, 32] ++ strBytes ("hdrstop") ++ [10])) ++
        strBytes ("void data();\n"))) :=
  ⟨⟨by decide, by decide, by decide⟩,
    filter_explicit_hdrstop none false (some (strBytes ("sample.cpp"))) false 0
      [32] [32, 32] (strBytes ("void data();\n")) (by decide) (by decide) (by decide)⟩

/-- C4.  Lexer raw-byte preservation: whenever `read_directive` parses a
directive, the raw buffer of the resulting directive together with the
unconsumed remainder reconstitutes the original byte stream exactly
(`first` is the already-read `#`): re-emitting `raw` reproduces the
directive's bytes verbatim. -/
theorem lexer_raw_byte_exact (first : Nat) (input : List Nat) (d : Directive)
    (rest : List Nat) (h : read_directive first input = some (d, rest)) :
    first :: input = d.rawOf ++ rest := by
  obtain ⟨cons, hin, hraw⟩ := read_directive_consumed first input d rest h
  simp [hin, hraw]

/-- C4 witness: a `#line` directive with a quoted file name containing a
space; its raw buffer is the full directive line, newline included. -/
theorem lexer_raw_byte_exact_witness :
    read_directive 35 (strBytes ("line 1 \"a b\"\nrest")) =
      some (Directive.Line (strBytes ("#line 1 \"a b\"\n")) (strBytes ("a b")),
        strBytes ("rest")) ∧
    35 :: strBytes ("line 1 \"a b\"\nrest") =
      (Directive.Line (strBytes ("#line 1 \"a b\"\n")) (strBytes ("a b"))).rawOf ++
        strBytes ("rest") :=
  ⟨by decide, lexer_raw_byte_exact 35 _ _ _ (by decide)⟩

/-- C5.  Marker matching: `marker_matches` — the test deciding
`header_found = true` in the `Line` handling of `filter_loop` — holds
exactly when the `/`-normalised file equals the `/`-normalised marker or
ends with it as a component-wise path suffix; concretely, marker
`sample header.h` matches the test header path, a backslash marker
matches after normalisation, and the byte-suffix `header.h` does *not*
match (component-wise, not byte-wise). -/
theorem marker_match_spec :
    (∀ (file m : List Nat),
      marker_matches file m = true ↔
        (file = normSlash m ∨ path_components (normSlash m) <:+ path_components file)) ∧
    marker_matches (strBytes ("e:/work/octobuild/test_cl/sample header.h"))
      (strBytes ("sample header.h")) = true ∧
    marker_matches (normSlash (strBytes ("e:\\work\\octobuild\\test_cl\\sample header.h")))
      (strBytes ("e:\\work\\octobuild\\test_cl\\sample header.h")) = true ∧
    marker_matches (strBytes ("e:/work/octobuild/test_cl/sample header.h"))
      (strBytes ("header.h")) = false := by
  refine ⟨?_, by decide, by decide, by decide⟩
  intro file m
  simp [marker_matches, ends_with_path, List.isSuffixOf_iff_suffix]

theorem filterMap_eq_map_filter {α β : Type} (f : α → Option β) (g : α → β)
    (p : α → Bool) (hf : ∀ a, f a = if p a then some (g a) else none) :
    ∀ l : List α, l.filterMap f = (l.filter p).map g := by
  intro l
  induction l with
  | nil => rfl
  | cons a l ih =>
    rw [List.filterMap_cons, List.filter_cons, hf a]
    by_cases hp : p a = true
    · simp [hp, ih]
    · simp [hp, ih]

/-- C6.  Scope partition: the preprocess argv (before the appended
control flags) is exactly the `Flag`/`Param` arguments of scope
`Preprocessor` or `Shared`, rendered `/<flag>` / `/<flag><value>` in
original order, and the compile argv is exactly those of scope
`Compiler` or `Shared` — plus `Preprocessor` if and only if
`output_precompiled` is set — while `Ignore`-scope, `Input`, and
`Output` arguments appear in neither. -/
theorem scope_partition :
    ∀ (args : List Arg) (output_precompiled : Bool),
      preprocess_args args = (args.filter pre_scope_keep).map arg_render ∧
      compile_args output_precompiled args =
        (args.filter (compile_scope_keep output_precompiled)).map arg_render := by
  intro args op
  constructor
  · refine filterMap_eq_map_filter _ _ _ ?_ args
    intro a
    match a with
    | .Flag s f => cases s <;> rfl
    | .Param s f v => cases s <;> rfl
    | .Input p => rfl
    | .Output k p => rfl
  · refine filterMap_eq_map_filter _ _ _ ?_ args
    intro a
    match a with
    | .Flag s f => cases s <;> cases op <;> rfl
    | .Param s f v => cases s <;> cases op <;> rfl
    | .Input p => rfl
    | .Output k p => rfl

/-- C7.  Preprocess failure path: when the preprocessor exits non-zero
(`status.success() = false`), the step returns `Failed` with the child's
exit code, an *empty* stdout (the captured stdout is dropped), and the
child's stderr unchanged — for every captured stdout, PCH configuration
and marker, so the filter is never consulted. -/
theorem preprocess_failure_path :
    ∀ (code : Option Int) (stdout stderr : List Nat) (input_pch output_pch : Bool)
      (marker : Option (List Nat)),
      preprocess_handle false code stdout stderr input_pch output_pch marker =
        some (PreprocessResult.Failed { status := code, stdout := [], stderr := stderr }) := by
  intro code stdout stderr ipch opch marker
  rfl

theorem deletes_refl : ∀ (a : Bool) (s : List Nat), Deletes4628 a s s := by
  intro a s
  induction s generalizing a with
  | nil => exact .nil a
  | cons c s ih => exact .keep a c s s (ih _)

theorem replace_scan_deletes :
    ∀ (fuel : Nat) (a : Bool) (s : List Nat), Deletes4628 a s (replace_scan fuel a s) := by
  intro fuel
  induction fuel with
  | zero => intro a s; exact deletes_refl a s
  | succ fuel ih =>
    intro a s
    match s with
    | [] => exact .nil a
    | c :: rest =>
      by_cases hA : a = true
      · subst hA
        cases hm : matchC4628 (c :: rest) with
        | some n =>
          simp only [replace_scan, if_pos rfl, hm]
          exact .del _ _ n hm (ih _ _)
        | none =>
          simp only [replace_scan, if_pos rfl, hm]
          exact .keep _ c rest _ (ih _ _)
      · simp only [replace_scan, if_neg hA]
        exact .keep _ c rest _ (ih _ _)

set_option maxRecDepth 100000 in
/-- C8.  C4628 suppression iff success: with `success = false` the
rewriter performs only the echo strip (every warning line is left
intact); with `success = true` it additionally applies
`replaceAll4628`, which deletes only segments matched by the C4628
pattern at line starts and preserves every other byte in order
(`Deletes4628`); on the repository's test stdout the single
`warning C4628` line is removed exactly when `success = true`. -/
theorem c4628_removed_iff_success :
    (∀ line buf, prepare_output line buf false = strip_echo line buf) ∧
    (∀ line buf, prepare_output line buf true = replaceAll4628 (strip_echo line buf)) ∧
    (∀ buf, Deletes4628 true buf (replaceAll4628 buf)) ∧
    prepare_output bbEcho (strBytes c4628In) true = strBytes c4628OutT ∧
    prepare_output bbEcho (strBytes c4628In) false = strBytes c4628OutF :=
  ⟨fun _ _ => rfl, fun _ _ => rfl,
    fun buf => replace_scan_deletes (buf.length + 1) true buf,
    by decide, by decide⟩

set_option maxRecDepth 100000 in
/-- C9 counterexample: a stdout whose basename line occurs twice.  One
application strips only the first occurrence; the second application
strips again, so applying the rewriter twice differs from applying it
once. -/
theorem rewriter_idempotent_cex :
    prepare_output bbEcho (prepare_output bbEcho c9buf true) true ≠
      prepare_output bbEcho c9buf true := by decide

/-- C9 amended: the rewriter is idempotent on `(basename, success)`
provided its first output does not again start with the basename
followed by an end-of-line byte, does not start with an end-of-line
byte, and (when `success`) is left unchanged by the C4628 removal. -/
theorem rewriter_idempotent_amended (line buf : List Nat) (success : Bool)
    (h1 : ¬((line.length < (prepare_output line buf success).length ∧
        (prepare_output line buf success).take line.length = line ∧
        is_eol ((prepare_output line buf success).getD line.length 0) = true)))
    (h2 : (prepare_output line buf success).dropWhile (fun c => is_eol c) =
        prepare_output line buf success)
    (h3 : success = true → replaceAll4628 (prepare_output line buf success) =
        prepare_output line buf success) :
    prepare_output line (prepare_output line buf success) success =
      prepare_output line buf success := by
  have hse : strip_echo line (prepare_output line buf success) =
      prepare_output line buf success := by
    simp only [strip_echo, if_neg h1, List.drop_zero]
    exact h2
  cases success
  · show strip_echo line (prepare_output line buf false) = prepare_output line buf false
    exact hse
  · show replaceAll4628 (strip_echo line (prepare_output line buf true)) =
      prepare_output line buf true
    rw [hse]
    exact h3 rfl

set_option maxRecDepth 100000 in
/-- C9 witness: a stdout whose once-rewritten form retriggers nothing. -/
theorem rewriter_idempotent_amended_witness :
    (¬(((strBytes ("sample.i")).length <
        (prepare_output (strBytes ("sample.i"))
          (strBytes ("sample.i\nfoo.c : warning\n")) true).length ∧
      (prepare_output (strBytes ("sample.i"))
          (strBytes ("sample.i\nfoo.c : warning\n")) true).take
          (strBytes ("sample.i")).length = strBytes ("sample.i") ∧
      is_eol ((prepare_output (strBytes ("sample.i"))
          (strBytes ("sample.i\nfoo.c : warning\n")) true).getD
          (strBytes ("sample.i")).length 0) = true)) ∧
     (prepare_output (strBytes ("sample.i"))
        (strBytes ("sample.i\nfoo.c : warning\n")) true).dropWhile
        (fun c => is_eol c) =
       prepare_output (strBytes ("sample.i"))
        (strBytes ("sample.i\nfoo.c : warning\n")) true ∧
     replaceAll4628 (prepare_output (strBytes ("sample.i"))
        (strBytes ("sample.i\nfoo.c : warning\n")) true) =
       prepare_output (strBytes ("sample.i"))
        (strBytes ("sample.i\nfoo.c : warning\n")) true) ∧
    prepare_output (strBytes ("sample.i"))
        (prepare_output (strBytes ("sample.i"))
          (strBytes ("sample.i\nfoo.c : warning\n")) true) true =
      prepare_output (strBytes ("sample.i"))
        (strBytes ("sample.i\nfoo.c : warning\n")) true :=
  ⟨⟨by decide, by decide, by decide⟩,
    rewriter_idempotent_amended (strBytes ("sample.i"))
      (strBytes ("sample.i\nfoo.c : warning\n")) true
      (by decide) (by decide) (fun _ => by decide)⟩

/-- C10 counterexample: a stdout exactly equal to the basename is *not*
always left unchanged — with basename `\nA` (which begins with an
end-of-line byte) the unconditional blank-line collapse strips the
leading `\n`. -/
theorem strip_echo_edge_cex :
    prepare_output [10, 65] [10, 65] false ≠ ([10, 65] : List Nat) := by decide

/-- C10 amended: when the basename-prefix test fails, the blank-line
collapse still runs from offset 0, so every leading end-of-line byte of
stdout is dropped regardless of the basename; and a stdout exactly
equal to the basename is left unchanged *provided* the basename does not
itself begin with an end-of-line byte and (when `success`) is unchanged
by the C4628 removal. -/
theorem strip_echo_edge_amended :
    (∀ (line buf : List Nat) (success : Bool),
      ¬((line.length < buf.length ∧ buf.take line.length = line ∧
        is_eol (buf.getD line.length 0) = true)) →
      prepare_output line buf success =
        (if success then replaceAll4628 (buf.dropWhile (fun c => is_eol c))
         else buf.dropWhile (fun c => is_eol c))) ∧
    (∀ (line : List Nat) (success : Bool),
      line.dropWhile (fun c => is_eol c) = line →
      (success = true → replaceAll4628 line = line) →
      prepare_output line line success = line) := by
  constructor
  · intro line buf success h1
    have hse : strip_echo line buf = buf.dropWhile (fun c => is_eol c) := by
      simp only [strip_echo, if_neg h1, List.drop_zero]
    cases success
    · show strip_echo line buf = _
      simp [hse]
    · show replaceAll4628 (strip_echo line buf) = _
      simp [hse]
  · intro line success h2 h3
    have h1 : ¬((line.length < line.length ∧ line.take line.length = line ∧
        is_eol (line.getD line.length 0) = true)) := by
      intro hcon
      exact absurd hcon.1 (lt_irrefl _)
    have hse : strip_echo line line = line := by
      simp only [strip_echo, if_neg h1, List.drop_zero]
      exact h2
    cases success
    · exact hse
    · show replaceAll4628 (strip_echo line line) = line
      rw [hse]
      exact h3 rfl

set_option maxRecDepth 100000 in
/-- C10 witness: blank-line collapse with a failing prefix test, and the
basename-fixed-point case. -/
theorem strip_echo_edge_amended_witness :
    (¬((([65] : List Nat).length < ([10, 10, 66, 10] : List Nat).length ∧
        ([10, 10, 66, 10] : List Nat).take ([65] : List Nat).length = [65] ∧
        is_eol (([10, 10, 66, 10] : List Nat).getD ([65] : List Nat).length 0) = true)) ∧
      prepare_output [65] [10, 10, 66, 10] false =
        (if false then replaceAll4628 (([10, 10, 66, 10] : List Nat).dropWhile
            (fun c => is_eol c))
         else ([10, 10, 66, 10] : List Nat).dropWhile (fun c => is_eol c))) ∧
    ((strBytes ("sample.i")).dropWhile (fun c => is_eol c) = strBytes ("sample.i") ∧
      replaceAll4628 (strBytes ("sample.i")) = strBytes ("sample.i") ∧
      prepare_output (strBytes ("sample.i")) (strBytes ("sample.i")) true =
        strBytes ("sample.i")) :=
  ⟨⟨by decide, strip_echo_edge_amended.1 [65] [10, 10, 66, 10] false (by decide)⟩,
    ⟨by decide, by decide,
      strip_echo_edge_amended.2 (strBytes ("sample.i")) true (by decide)
        (fun _ => by decide)⟩⟩

end Octobuild
